import Mathlib

/-!
Verification of the tmscoring package (`tmscore.py`) against its
natural-language specification.

The development shallowly embeds the core of `tmscoring.tmscore.Aligning`:

* the transform model `get_matrix` (including its shared default-argument
  output buffer, modelled by explicit buffer passing),
* the correspondence builders `_load_data_index` / `_load_data_alignment`
  and the `__init__` mode dispatch and `d0` derivation,
* the score functions `_tm` / `_rmsd` / `tmscore` / `rmsd`,
* the initial-guess estimator `get_default_values`,
* the numeric core of the structure writer `write`.

Real numbers stand for Python floats; a floating-point operation that
leaves the reals (a division whose IEEE result would be NaN, or a Python 2
`ValueError` from raising a negative number to a fractional power) is
modelled as an explicit error value of an `Except`.
-/

namespace TMScoring

open Matrix Real

noncomputable section

/-- Rotation block of `Aligning.get_matrix` (`tmscore.py` lines 103–108):
the nine entries assigned row-major to `matrix[:3, :3]` via `rotation.flat`,
with `cx,cy,cz = cos(theta),cos(phi),cos(psi)` and
`sx,sy,sz = sin(theta),sin(phi),sin(psi)`. -/
def rotBlock (theta phi psi : ℝ) : Matrix (Fin 3) (Fin 3) ℝ :=
  let cx := Real.cos theta
  let cy := Real.cos phi
  let cz := Real.cos psi
  let sx := Real.sin theta
  let sy := Real.sin phi
  let sz := Real.sin psi
  ![![cx * cz - sx * cy * sz, cx * sz + sx * cy * cz, sx * sy],
    ![-sx * cz - cx * cy * sz, -sx * sz + cx * cy * cz, cx * sy],
    ![sy * sz, -sy * cz, cy]]

/-- One call of `Aligning.get_matrix` (`tmscore.py` lines 78–113) acting on
its shared output buffer: the call writes the rotation block into
`buf[:3, :3]`, the translation into `buf[:3, 3]`, and `1` into `buf[3, 3]`;
the bottom-left entries `buf[3, 0..2]` are never written and keep the
buffer's previous contents. -/
def getMatrixWrite (theta phi psi dx dy dz : ℝ)
    (buf : Matrix (Fin 4) (Fin 4) ℝ) : Matrix (Fin 4) (Fin 4) ℝ :=
  let R := rotBlock theta phi psi
  Matrix.of
    ![![R 0 0, R 0 1, R 0 2, dx],
      ![R 1 0, R 1 1, R 1 2, dy],
      ![R 2 0, R 2 1, R 2 2, dz],
      ![buf 3 0, buf 3 1, buf 3 2, 1]]

/-- Value returned by `Aligning.get_matrix` when the shared buffer still has
its initial contents (`np.zeros((4, 4))`): the bottom-left entries read 0. -/
def getMatrix (theta phi psi dx dy dz : ℝ) : Matrix (Fin 4) (Fin 4) ℝ :=
  getMatrixWrite theta phi psi dx dy dz 0

/-- C8. `get_matrix` returns the homogeneous matrix whose rotation block has
the three specified rows, whose translation column is `(dx, dy, dz)` and
whose bottom row is `(0,0,0,1)`; and at zero angles it acts on a homogeneous
point `(x, y, z, 1)` as the pure translation `(x+dx, y+dy, z+dz, 1)`. -/
theorem getMatrix_entries_and_translation :
    (∀ theta phi psi dx dy dz : ℝ,
      getMatrix theta phi psi dx dy dz =
        Matrix.of
          ![![Real.cos theta * Real.cos psi -
                Real.sin theta * Real.cos phi * Real.sin psi,
              Real.cos theta * Real.sin psi +
                Real.sin theta * Real.cos phi * Real.cos psi,
              Real.sin theta * Real.sin phi, dx],
            ![-(Real.sin theta) * Real.cos psi -
                Real.cos theta * Real.cos phi * Real.sin psi,
              -(Real.sin theta) * Real.sin psi +
                Real.cos theta * Real.cos phi * Real.cos psi,
              Real.cos theta * Real.sin phi, dy],
            ![Real.sin phi * Real.sin psi, -(Real.sin phi) * Real.cos psi,
              Real.cos phi, dz],
            ![0, 0, 0, 1]]) ∧
    (∀ dx dy dz x y z : ℝ,
      (getMatrix 0 0 0 dx dy dz).mulVec ![x, y, z, 1] =
        ![x + dx, y + dy, z + dz, 1]) := by
  constructor
  · intro theta phi psi dx dy dz
    ext i j
    fin_cases i <;> fin_cases j <;>
      simp [getMatrix, getMatrixWrite, rotBlock]
  · intro dx dy dz x y z
    ext i
    fin_cases i <;>
      simp [getMatrix, getMatrixWrite, rotBlock, Matrix.mulVec, dotProduct,
        Fin.sum_univ_four, Matrix.zero_apply, Matrix.vecHead, Matrix.vecTail]

/-- Elementary rotation about the z axis, in the sign convention matched by
the `get_matrix` rotation block (proof device for the determinant claims). -/
def rotZ (a : ℝ) : Matrix (Fin 3) (Fin 3) ℝ :=
  ![![Real.cos a, Real.sin a, 0],
    ![-(Real.sin a), Real.cos a, 0],
    ![0, 0, 1]]

/-- Elementary rotation about the x axis, in the sign convention matched by
the `get_matrix` rotation block (proof device for the determinant claims). -/
def rotX (a : ℝ) : Matrix (Fin 3) (Fin 3) ℝ :=
  ![![1, 0, 0],
    ![0, Real.cos a, Real.sin a],
    ![0, -(Real.sin a), Real.cos a]]

theorem rotBlock_eq_mul (theta phi psi : ℝ) :
    rotBlock theta phi psi = rotZ theta * rotX phi * rotZ psi := by
  ext i j
  fin_cases i <;> fin_cases j <;>
    simp [rotBlock, rotZ, rotX, Matrix.mul_apply, Fin.sum_univ_three] <;> ring

theorem det_rotZ (a : ℝ) : (rotZ a).det = 1 := by
  rw [Matrix.det_fin_three]
  simp [rotZ]
  nlinarith [Real.sin_sq_add_cos_sq a]

theorem det_rotX (a : ℝ) : (rotX a).det = 1 := by
  rw [Matrix.det_fin_three]
  simp [rotX]
  nlinarith [Real.sin_sq_add_cos_sq a]

theorem det_rotBlock (theta phi psi : ℝ) :
    (rotBlock theta phi psi).det = 1 := by
  rw [rotBlock_eq_mul, Matrix.det_mul, Matrix.det_mul, det_rotZ, det_rotX,
    det_rotZ]
  norm_num

/-- Extraction of the 3×3 rotation block `matrix[:3, :3]` from the 4×4
matrix returned by `get_matrix`. -/
def rotOf (m : Matrix (Fin 4) (Fin 4) ℝ) : Matrix (Fin 3) (Fin 3) ℝ :=
  ![![m 0 0, m 0 1, m 0 2],
    ![m 1 0, m 1 1, m 1 2],
    ![m 2 0, m 2 1, m 2 2]]

theorem rotOf_getMatrix (theta phi psi dx dy dz : ℝ) :
    rotOf (getMatrix theta phi psi dx dy dz) = rotBlock theta phi psi := by
  ext i j
  fin_cases i <;> fin_cases j <;>
    simp [rotOf, getMatrix, getMatrixWrite, rotBlock]

theorem det_expand_fin_four (A : Matrix (Fin 4) (Fin 4) ℝ) :
    A.det =
      A 0 0 * (A 1 1 * (A 2 2 * A 3 3 - A 2 3 * A 3 2)
               - A 1 2 * (A 2 1 * A 3 3 - A 2 3 * A 3 1)
               + A 1 3 * (A 2 1 * A 3 2 - A 2 2 * A 3 1))
    - A 0 1 * (A 1 0 * (A 2 2 * A 3 3 - A 2 3 * A 3 2)
               - A 1 2 * (A 2 0 * A 3 3 - A 2 3 * A 3 0)
               + A 1 3 * (A 2 0 * A 3 2 - A 2 2 * A 3 0))
    + A 0 2 * (A 1 0 * (A 2 1 * A 3 3 - A 2 3 * A 3 1)
               - A 1 1 * (A 2 0 * A 3 3 - A 2 3 * A 3 0)
               + A 1 3 * (A 2 0 * A 3 1 - A 2 1 * A 3 0))
    - A 0 3 * (A 1 0 * (A 2 1 * A 3 2 - A 2 2 * A 3 1)
               - A 1 1 * (A 2 0 * A 3 2 - A 2 2 * A 3 0)
               + A 1 2 * (A 2 0 * A 3 1 - A 2 1 * A 3 0)) := by
  rw [Matrix.det_succ_row_zero]
  simp [Fin.sum_univ_succ, Matrix.det_fin_three, Fin.succAbove, Fin.lt_def,
    show Fin.succ (2 : Fin 3) = 3 from rfl, show Fin.castSucc (2 : Fin 3) = 2 from rfl,
    show Fin.succ (1 : Fin 3) = 2 from rfl, show Fin.castSucc (1 : Fin 3) = 1 from rfl]
  ring

theorem det_getMatrix (theta phi psi dx dy dz : ℝ) :
    (getMatrix theta phi psi dx dy dz).det = 1 := by
  have hdet := det_rotBlock theta phi psi
  rw [Matrix.det_fin_three] at hdet
  rw [det_expand_fin_four]
  simp [getMatrix, getMatrixWrite, Matrix.zero_apply]
  linear_combination hdet

/-- C9. For all real angles and translations, the rotation block of
`get_matrix` has determinant exactly 1 and the full homogeneous matrix has
determinant exactly 1, hence both are within the specified 1e-6 tolerance. -/
theorem getMatrix_det_one (theta phi psi dx dy dz : ℝ) :
    |(rotOf (getMatrix theta phi psi dx dy dz)).det - 1| ≤ 1e-6 ∧
    |(getMatrix theta phi psi dx dy dz).det - 1| ≤ 1e-6 := by
  rw [rotOf_getMatrix, det_rotBlock, det_getMatrix]
  norm_num

/-- C10. `get_matrix` writes into a single module-lifetime output buffer
(the default-argument array): a second call fully determines every entry
that any call ever writes, so running two calls in sequence leaves the
buffer — hence the array both calls returned — holding exactly the second
call's matrix, independently of the first call's parameters. -/
theorem getMatrix_shared_buffer_overwrite :
    (∀ theta phi psi dx dy dz theta' phi' psi' dx' dy' dz' : ℝ,
      ∀ buf : Matrix (Fin 4) (Fin 4) ℝ,
      getMatrixWrite theta' phi' psi' dx' dy' dz'
          (getMatrixWrite theta phi psi dx dy dz buf) =
        getMatrixWrite theta' phi' psi' dx' dy' dz' buf) ∧
    (∀ theta phi psi dx dy dz theta' phi' psi' dx' dy' dz' : ℝ,
      getMatrixWrite theta' phi' psi' dx' dy' dz'
          (getMatrixWrite theta phi psi dx dy dz 0) =
        getMatrix theta' phi' psi' dx' dy' dz') := by
  constructor
  · intro theta phi psi dx dy dz theta' phi' psi' dx' dy' dz' buf
    ext i j
    fin_cases i <;> fin_cases j <;> simp [getMatrixWrite]
  · intro theta phi psi dx dy dz theta' phi' psi' dx' dy' dz'
    ext i j
    fin_cases i <;> fin_cases j <;>
      simp [getMatrix, getMatrixWrite, Matrix.zero_apply]

/-- One residue of a parsed structure, as the correspondence builders use
it: `id` is the integer residue id `r.id[1]`, and `ca` is the 3D position
of the marker atom when `'CA' in r` holds (`None` models a residue without
a CA atom). Parsing itself is an external collaborator. -/
structure Residue where
  id : ℤ
  ca : Option (ℝ × ℝ × ℝ)

/-- Homogeneous coordinate column stacked by both loaders:
`np.concatenate((r['CA'].get_coord(), (1,)))`. -/
def homog (p : ℝ × ℝ × ℝ) : Fin 4 → ℝ :=
  ![p.1, p.2.1, p.2.2, 1]

/-- Inputs of a construction: the residues of the two parsed structures,
the two one-letter sequences (external peptide projection), and the first
optimal gapped alignment pair returned by the external
`pairwise2.align.globalms` call (alignment mode only). -/
structure Input where
  residues1 : List Residue
  residues2 : List Residue
  seq1 : List Char
  seq2 : List Char
  aligned1 : List Char
  aligned2 : List Char

/-- Result of a `_load_data_*` call: the two stacked coordinate matrices
(as lists of homogeneous columns) and the normalisation count `N`. -/
structure LoadResult where
  coord1 : List (Fin 4 → ℝ)
  coord2 : List (Fin 4 → ℝ)
  N : ℕ

/-- Scoring-object state after `__init__`: the fields of `LoadResult` plus
the cached squared scale parameter `d0²`. -/
structure Scorer where
  coord1 : List (Fin 4 → ℝ)
  coord2 : List (Fin 4 → ℝ)
  N : ℕ
  d02 : ℝ

/-- Errors a construction can raise. `unrecognisedMode` is the
`ValueError('Unrecognised mode ...')` of `__init__`; `emptyStack` is the
`ValueError` `np.hstack` raises on an empty list of columns;
`negFractionalPower` is the Python 2 `ValueError` raised by
`(self.N - 15)**(1.0/3.0)` when `N < 15` (negative base, fractional
exponent). -/
inductive InitError where
  | unrecognisedMode (mode : String)
  | emptyStack
  | negFractionalPower
deriving DecidableEq

/-- Columns stacked by `_load_data_index` for one structure: keep each
residue whose id lies in both structures' id sets and which carries a CA
atom, in native order; stack `(x, y, z, 1)`. -/
def stackIndex (ids1 ids2 : List ℤ) (residues : List Residue) :
    List (Fin 4 → ℝ) :=
  residues.filterMap fun r =>
    if r.id ∈ ids1 ∧ r.id ∈ ids2 then r.ca.map homog else none

/-- Embedding of `Aligning._load_data_index` (`tmscore.py` lines 216–243):
`indexes1`/`indexes2` are the residue-id sets, the stacked columns keep
residues with a common id and a CA atom, and `N = len(indexes1)` — the
number of distinct ids of structure 1, not the stacked column count. -/
def loadDataIndex (inp : Input) : Except InitError LoadResult :=
  let ids1 := inp.residues1.map Residue.id
  let ids2 := inp.residues2.map Residue.id
  let coord1 := stackIndex ids1 ids2 inp.residues1
  let coord2 := stackIndex ids1 ids2 inp.residues2
  if coord1.isEmpty || coord2.isEmpty then .error .emptyStack
  else .ok ⟨coord1, coord2, ids1.dedup.length⟩

/-- Alignment positions where neither aligned sequence has a gap
(`indexes` in `_load_data_alignment`). -/
def gapFree (aligned1 aligned2 : List Char) (i : ℕ) : Prop :=
  match (aligned1.zip aligned2).get? i with
  | some p => p.1 ≠ '-' ∧ p.2 ≠ '-'
  | none => False

instance (aligned1 aligned2 : List Char) (i : ℕ) :
    Decidable (gapFree aligned1 aligned2 i) := by
  unfold gapFree
  cases (aligned1.zip aligned2).get? i with
  | none => exact inferInstanceAs (Decidable False)
  | some p => exact inferInstanceAs (Decidable (_ ∧ _))

/-- Columns stacked by `_load_data_alignment` for one structure: enumerate
residues by position, keep those whose position is a gap-free alignment
position and which carry a CA atom. -/
def stackAlignment (aligned1 aligned2 : List Char) (residues : List Residue) :
    List (Fin 4 → ℝ) :=
  residues.enum.filterMap fun p =>
    if gapFree aligned1 aligned2 p.1 then p.2.ca.map homog else none

/-- Embedding of `Aligning._load_data_alignment` (`tmscore.py` lines
185–214): the matched positions come from the externally produced
alignment pair, and `N = len(seq1)` — the full length of structure 1's
sequence. -/
def loadDataAlignment (inp : Input) : Except InitError LoadResult :=
  let coord1 := stackAlignment inp.aligned1 inp.aligned2 inp.residues1
  let coord2 := stackAlignment inp.aligned1 inp.aligned2 inp.residues2
  if coord1.isEmpty || coord2.isEmpty then .error .emptyStack
  else .ok ⟨coord1, coord2, inp.seq1.length⟩

/-- The `d0` estimate of `__init__` (`tmscore.py` line 33), defined for
`N ≥ 15`; for `N < 15` the Python 2 power raises before this value forms. -/
def d0Of (N : ℕ) : ℝ :=
  1.24 * ((N : ℝ) - 15) ^ ((1 : ℝ) / 3) - 1.8

/-- Tail of `__init__` after a loader succeeded: derive `d0` from `N` and
cache `d0²`. In Python 2, `(self.N - 15)**(1.0/3.0)` raises `ValueError`
for `N < 15`, so construction fails there. -/
def buildScorer (loaded : Except InitError LoadResult) :
    Except InitError Scorer :=
  match loaded with
  | .error e => .error e
  | .ok l =>
      if l.N < 15 then .error .negFractionalPower
      else .ok ⟨l.coord1, l.coord2, l.N, d0Of l.N ^ 2⟩

/-- Embedding of `Aligning.__init__` (`tmscore.py` lines 17–36): dispatch
on the mode string — `'align'` runs `_load_data_alignment`, `'index'` runs
`_load_data_index`, anything else raises
`ValueError('Unrecognised mode ...')` — then derive `d0²`. An error leaves
no constructed object. -/
def mkAligning (mode : String) (inp : Input) : Except InitError Scorer :=
  if mode = "align" then buildScorer (loadDataAlignment inp)
  else if mode = "index" then buildScorer (loadDataIndex inp)
  else .error (.unrecognisedMode mode)

/-- Per-column squared distance as the code computes it
(`d_i2 = (dist * dist).sum(axis=0)`, `tmscore.py` line 141): the sum of
squares of ALL FOUR rows of the residual column
`matrix.dot(coord2) - coord1`. -/
def dist2All (m : Matrix (Fin 4) (Fin 4) ℝ) (c2 c1 : Fin 4 → ℝ) : ℝ :=
  ∑ j : Fin 4, (m.mulVec c2 j - c1 j) ^ 2

/-- Per-column squared distance as the spec words it: the sum of squares of
only the first 3 rows of the residual. -/
def dist2Three (m : Matrix (Fin 4) (Fin 4) ℝ) (c2 c1 : Fin 4 → ℝ) : ℝ :=
  ∑ j : Fin 3, (m.mulVec c2 j.castSucc - c1 j.castSucc) ^ 2

/-- Embedding of `Aligning._tm` (`tmscore.py` lines 133–145): the
unnormalised minimisation target
`-(1 / (1 + d_i2/d02)).sum()` over the matched columns. The `zip` pairs
the two column lists and is faithful to `coord - self.coord1` exactly
when the two lists have equal length — the case the shape-dependent
theorems below hypothesise; on unequal lengths numpy instead raises a
broadcast error, or broadcasts a single column into every residual
column. -/
def tmRaw (s : Scorer) (theta phi psi dx dy dz : ℝ) : ℝ :=
  let m := getMatrix theta phi psi dx dy dz;
  let terms := (s.coord2.zip s.coord1).map fun p =>
    1 / (1 + dist2All m p.1 p.2 / s.d02);
  -terms.sum

/-- Embedding of `Aligning._rmsd` (`tmscore.py` lines 147–151): the
unnormalised squared-deviation sum `(dist * dist).sum()`. The `zip` is
faithful exactly on equal-length column lists, as for `tmRaw`. -/
def rmsdRaw (s : Scorer) (theta phi psi dx dy dz : ℝ) : ℝ :=
  let m := getMatrix theta phi psi dx dy dz
  ((s.coord2.zip s.coord1).map fun p => dist2All m p.1 p.2).sum

/-- Embedding of `Aligning.tmscore` (`tmscore.py` lines 153–154):
`-self._tm(...) / self.N`. -/
def tmscore (s : Scorer) (theta phi psi dx dy dz : ℝ) : ℝ :=
  -(tmRaw s theta phi psi dx dy dz) / s.N

/-- Embedding of `Aligning.rmsd` (`tmscore.py` lines 156–157):
`np.sqrt(self._rmsd(...) / self.N)`. -/
def rmsd (s : Scorer) (theta phi psi dx dy dz : ℝ) : ℝ :=
  Real.sqrt (rmsdRaw s theta phi psi dx dy dz / s.N)

theorem getMatrix_bottom_row (theta phi psi dx dy dz : ℝ) :
    getMatrix theta phi psi dx dy dz 3 0 = 0 ∧
    getMatrix theta phi psi dx dy dz 3 1 = 0 ∧
    getMatrix theta phi psi dx dy dz 3 2 = 0 ∧
    getMatrix theta phi psi dx dy dz 3 3 = 1 := by
  refine ⟨?_, ?_, ?_, ?_⟩ <;> simp [getMatrix, getMatrixWrite, Matrix.zero_apply]

/-- The affine row of a transformed column is again exactly 1, so its
residual against an affine-1 column vanishes and the 4-row squared
distance agrees with the 3-row one. -/
theorem dist2All_eq_dist2Three (theta phi psi dx dy dz : ℝ)
    (c2 c1 : Fin 4 → ℝ) (h2 : c2 3 = 1) (h1 : c1 3 = 1) :
    dist2All (getMatrix theta phi psi dx dy dz) c2 c1 =
      dist2Three (getMatrix theta phi psi dx dy dz) c2 c1 := by
  obtain ⟨hb0, hb1, hb2, hb3⟩ := getMatrix_bottom_row theta phi psi dx dy dz
  have haff : (getMatrix theta phi psi dx dy dz).mulVec c2 3 = 1 := by
    simp [Matrix.mulVec, dotProduct, Fin.sum_univ_four, hb0, hb1, hb2, hb3, h2]
  unfold dist2All dist2Three
  rw [Fin.sum_univ_castSucc]
  simp [haff, h1, show (Fin.last 3 : Fin 4) = 3 from rfl]

/-- C3. On coordinate matrices whose affine rows are 1, `tmscore` equals
`(1/N) · Σ_i 1/(1 + d_i²/d0²)` and `rmsd` equals `sqrt((Σ_i d_i²)/N)`
where `d_i²` sums the squares of only the first 3 residual rows: the
code's 4-row sum gets no contribution from the affine row. -/
theorem tmscore_rmsd_eq_three_row_form (s : Scorer)
    (h1 : ∀ c ∈ s.coord1, c 3 = 1) (h2 : ∀ c ∈ s.coord2, c 3 = 1)
    (theta phi psi dx dy dz : ℝ) :
    tmscore s theta phi psi dx dy dz =
      (1 / (s.N : ℝ)) *
        ((s.coord2.zip s.coord1).map fun p =>
          1 / (1 + dist2Three (getMatrix theta phi psi dx dy dz) p.1 p.2
                / s.d02)).sum ∧
    rmsd s theta phi psi dx dy dz =
      Real.sqrt
        (((s.coord2.zip s.coord1).map fun p =>
            dist2Three (getMatrix theta phi psi dx dy dz) p.1 p.2).sum
          / (s.N : ℝ)) := by
  have hmap : ∀ f g : (Fin 4 → ℝ) × (Fin 4 → ℝ) → ℝ,
      (∀ p ∈ s.coord2.zip s.coord1, f p = g p) →
      ((s.coord2.zip s.coord1).map f).sum =
        ((s.coord2.zip s.coord1).map g).sum := by
    intro f g hfg
    exact congrArg List.sum (List.map_congr_left hfg)
  have hcol : ∀ p ∈ s.coord2.zip s.coord1,
      dist2All (getMatrix theta phi psi dx dy dz) p.1 p.2 =
        dist2Three (getMatrix theta phi psi dx dy dz) p.1 p.2 := by
    intro p hp
    have hmem2 : p.1 ∈ s.coord2 := (List.of_mem_zip hp).1
    have hmem1 : p.2 ∈ s.coord1 := (List.of_mem_zip hp).2
    exact dist2All_eq_dist2Three theta phi psi dx dy dz p.1 p.2
      (h2 p.1 hmem2) (h1 p.2 hmem1)
  have htm := hmap
    (fun p => 1 / (1 + dist2All (getMatrix theta phi psi dx dy dz) p.1 p.2
      / s.d02))
    (fun p => 1 / (1 + dist2Three (getMatrix theta phi psi dx dy dz) p.1 p.2
      / s.d02))
    (fun p hp => by simp only [hcol p hp])
  have hrm := hmap
    (fun p => dist2All (getMatrix theta phi psi dx dy dz) p.1 p.2)
    (fun p => dist2Three (getMatrix theta phi psi dx dy dz) p.1 p.2)
    hcol
  constructor
  · simp only [tmscore, tmRaw]
    rw [htm]
    ring
  · simp only [rmsd, rmsdRaw]
    rw [hrm]

/-- Witness for C3 at a concrete scorer and parameters. -/
theorem tmscore_rmsd_eq_three_row_form_witness :
    (∀ c ∈ [homog (0, 0, 0)], c 3 = 1) ∧
    (tmscore ⟨[homog (0, 0, 0)], [homog (0, 0, 0)], 15, 1⟩ 0 0 0 0 0 0 =
      (1 / ((15 : ℕ) : ℝ)) *
        (([homog (0, 0, 0)].zip [homog (0, 0, 0)]).map fun p =>
          1 / (1 + dist2Three (getMatrix 0 0 0 0 0 0) p.1 p.2 / 1)).sum) := by
  have hc : ∀ c ∈ [homog (0, 0, 0)], c 3 = 1 := by
    intro c hc
    simp only [List.mem_singleton] at hc
    subst hc
    simp [homog]
  exact ⟨hc,
    (tmscore_rmsd_eq_three_row_form
      ⟨[homog (0, 0, 0)], [homog (0, 0, 0)], 15, 1⟩ hc hc 0 0 0 0 0 0).1⟩

/-- A throwaway construction input. -/
def emptyInput : Input :=
  ⟨[], [], [], [], [], []⟩

/-- C4 counterexample. The mode string `"alignment"` named by the claim is
NOT accepted: `__init__` only recognises `'align'`, so `"alignment"`
raises the unrecognised-mode error instead of selecting the
sequence-alignment correspondence builder. -/
theorem mkAligning_alignment_rejected :
    mkAligning "alignment" emptyInput =
      .error (.unrecognisedMode "alignment") := by
  rfl

theorem mk_index_eq (inp : Input) :
    mkAligning "index" inp = buildScorer (loadDataIndex inp) := rfl

theorem mk_align_eq (inp : Input) :
    mkAligning "align" inp = buildScorer (loadDataAlignment inp) := rfl

/-- C4 (amended). Construction accepts exactly the matching modes
`"index"` and `"align"`: `"index"` selects the residue-id correspondence
builder, `"align"` selects the sequence-alignment correspondence builder,
and any other mode string (including `"alignment"`) makes construction
fail with the invalid-configuration error, producing no object. -/
theorem mkAligning_mode_dispatch :
    (∀ inp, mkAligning "index" inp = buildScorer (loadDataIndex inp)) ∧
    (∀ inp, mkAligning "align" inp = buildScorer (loadDataAlignment inp)) ∧
    (∀ mode inp, mode ≠ "index" → mode ≠ "align" →
      mkAligning mode inp = .error (.unrecognisedMode mode)) := by
  refine ⟨mk_index_eq, mk_align_eq, fun mode inp h1 h2 => ?_⟩
  simp [mkAligning, h1, h2]

/-- Witness for C4 at a concrete unrecognised mode string. -/
theorem mkAligning_mode_dispatch_witness :
    "indices" ≠ "index" ∧ "indices" ≠ "align" ∧
    mkAligning "indices" emptyInput =
      .error (.unrecognisedMode "indices") := by
  exact ⟨by decide, by decide,
    mkAligning_mode_dispatch.2.2 "indices" emptyInput (by decide) (by decide)⟩

theorem buildScorer_ok_inv (loaded : Except InitError LoadResult)
    (s : Scorer) (h : buildScorer loaded = .ok s) :
    ∃ l, loaded = .ok l ∧ 15 ≤ l.N ∧
      s = ⟨l.coord1, l.coord2, l.N, d0Of l.N ^ 2⟩ := by
  cases loaded with
  | error e => exact absurd h (by simp [buildScorer])
  | ok l =>
      simp only [buildScorer] at h
      by_cases hN : l.N < 15
      · rw [if_pos hN] at h
        exact absurd h (by simp)
      · rw [if_neg hN] at h
        simp only [Except.ok.injEq] at h
        exact ⟨l, rfl, not_lt.mp hN, h.symm⟩

theorem loadDataIndex_ok_inv (inp : Input) (l : LoadResult)
    (h : loadDataIndex inp = .ok l) :
    l = ⟨stackIndex (inp.residues1.map Residue.id)
          (inp.residues2.map Residue.id) inp.residues1,
        stackIndex (inp.residues1.map Residue.id)
          (inp.residues2.map Residue.id) inp.residues2,
        (inp.residues1.map Residue.id).dedup.length⟩ ∧
      ¬l.coord1.isEmpty ∧ ¬l.coord2.isEmpty := by
  simp only [loadDataIndex] at h
  by_cases he : (stackIndex (inp.residues1.map Residue.id)
      (inp.residues2.map Residue.id) inp.residues1).isEmpty ||
      (stackIndex (inp.residues1.map Residue.id)
        (inp.residues2.map Residue.id) inp.residues2).isEmpty
  · rw [if_pos he] at h
    exact absurd h (by simp)
  · rw [if_neg he] at h
    simp only [Except.ok.injEq] at h
    simp only [Bool.or_eq_true, not_or, Bool.not_eq_true] at he
    subst h
    exact ⟨rfl, by simp [he.1], by simp [he.2]⟩

theorem loadDataAlignment_ok_inv (inp : Input) (l : LoadResult)
    (h : loadDataAlignment inp = .ok l) :
    l = ⟨stackAlignment inp.aligned1 inp.aligned2 inp.residues1,
        stackAlignment inp.aligned1 inp.aligned2 inp.residues2,
        inp.seq1.length⟩ ∧
      ¬l.coord1.isEmpty ∧ ¬l.coord2.isEmpty := by
  simp only [loadDataAlignment] at h
  by_cases he : (stackAlignment inp.aligned1 inp.aligned2
      inp.residues1).isEmpty ||
      (stackAlignment inp.aligned1 inp.aligned2 inp.residues2).isEmpty
  · rw [if_pos he] at h
    exact absurd h (by simp)
  · rw [if_neg he] at h
    simp only [Except.ok.injEq] at h
    simp only [Bool.or_eq_true, not_or, Bool.not_eq_true] at he
    subst h
    exact ⟨rfl, by simp [he.1], by simp [he.2]⟩

/-- C6. The normalisation count `N` is decoupled from the stacked column
count: index mode records the number of DISTINCT residue ids of structure
1 (`len(set(...))`, not the filtered column count), alignment mode records
the full length of structure 1's sequence; and either way `d0²` is derived
once from that `N` as `(1.24·(N−15)^(1/3) − 1.8)²`. -/
theorem n_decoupled_and_d0 :
    (∀ inp s, mkAligning "index" inp = .ok s →
      s.N = (inp.residues1.map Residue.id).dedup.length ∧
      s.d02 = (1.24 * ((s.N : ℝ) - 15) ^ ((1 : ℝ) / 3) - 1.8) ^ 2) ∧
    (∀ inp s, mkAligning "align" inp = .ok s →
      s.N = inp.seq1.length ∧
      s.d02 = (1.24 * ((s.N : ℝ) - 15) ^ ((1 : ℝ) / 3) - 1.8) ^ 2) := by
  constructor
  · intro inp s h
    rw [mk_index_eq inp] at h
    obtain ⟨l, hl, hN, hs⟩ := buildScorer_ok_inv _ _ h
    obtain ⟨hl', _, _⟩ := loadDataIndex_ok_inv inp l hl
    subst hs
    subst hl'
    exact ⟨rfl, rfl⟩
  · intro inp s h
    rw [mk_align_eq inp] at h
    obtain ⟨l, hl, hN, hs⟩ := buildScorer_ok_inv _ _ h
    obtain ⟨hl', _, _⟩ := loadDataAlignment_ok_inv inp l hl
    subst hs
    subst hl'
    exact ⟨rfl, rfl⟩

/-- Fifteen residues with distinct ids 0..14, each carrying a CA atom at
the origin. -/
def res15 : List Residue :=
  (List.range 15).map fun i => ⟨i, some (0, 0, 0)⟩

/-- Concrete index-mode construction input: two identical structures of 15
residues. -/
def inp15 : Input :=
  ⟨res15, res15, [], [], [], []⟩

/-- The scorer successfully constructed from `inp15` in index mode. -/
def s15 : Scorer :=
  match mkAligning "index" inp15 with
  | .ok s => s
  | .error _ => ⟨[], [], 0, 0⟩

theorem mk_inp15_ok : mkAligning "index" inp15 = .ok s15 := rfl

/-- Witness for C6 at the concrete construction `inp15`. -/
theorem n_decoupled_and_d0_witness :
    mkAligning "index" inp15 = .ok s15 ∧
    s15.N = (inp15.residues1.map Residue.id).dedup.length ∧
    s15.d02 = (1.24 * ((s15.N : ℝ) - 15) ^ ((1 : ℝ) / 3) - 1.8) ^ 2 :=
  ⟨mk_inp15_ok, n_decoupled_and_d0.1 inp15 s15 mk_inp15_ok⟩

/-- For no integer `N ≥ 15` does `1.24·(N−15)^(1/3) − 1.8` vanish: the only
real root would need `N − 15 = (45/31)³ = 91125/29791`, which is not an
integer. -/
theorem d0Of_ne_zero (n : ℕ) (hn : 15 ≤ n) : d0Of n ≠ 0 := by
  unfold d0Of
  intro heq
  have hbase : (0 : ℝ) ≤ (n : ℝ) - 15 := by
    have h15 : (15 : ℝ) ≤ (n : ℝ) := by exact_mod_cast hn
    linarith
  have hcube : (((n : ℝ) - 15) ^ ((1 : ℝ) / 3)) ^ (3 : ℕ) = (n : ℝ) - 15 := by
    rw [← Real.rpow_natCast (((n : ℝ) - 15) ^ ((1 : ℝ) / 3)) 3,
      ← Real.rpow_mul hbase]
    norm_num
  have hx : ((n : ℝ) - 15) ^ ((1 : ℝ) / 3) = 1.8 / 1.24 := by linarith
  rw [hx] at hcube
  have hn' : ((n : ℝ)) * 29791 = 537990 := by
    norm_num at hcube
    linarith
  have hnat : n * 29791 = 537990 := by exact_mod_cast hn'
  omega

theorem d02_pos (n : ℕ) (hn : 15 ≤ n) : 0 < d0Of n ^ 2 :=
  lt_of_le_of_ne (sq_nonneg _) (Ne.symm (pow_ne_zero 2 (d0Of_ne_zero n hn)))

/-- Each saturating term `1/(1 + d_i²/d0²)` lies in `(0, 1]` when
`d0² > 0`. -/
theorem tm_term_bounds (m : Matrix (Fin 4) (Fin 4) ℝ) (c2 c1 : Fin 4 → ℝ)
    (d02 : ℝ) (hd : 0 < d02) :
    0 ≤ 1 / (1 + dist2All m c2 c1 / d02) ∧
    1 / (1 + dist2All m c2 c1 / d02) ≤ 1 := by
  have hd2 : 0 ≤ dist2All m c2 c1 :=
    Finset.sum_nonneg fun j _ => sq_nonneg _
  have hden : (1 : ℝ) ≤ 1 + dist2All m c2 c1 / d02 := by
    have := div_nonneg hd2 hd.le
    linarith
  constructor
  · positivity
  · calc 1 / (1 + dist2All m c2 c1 / d02) ≤ 1 / 1 :=
        one_div_le_one_div_of_le one_pos hden
    _ = 1 := by norm_num

/-- Core bound: if `d0² > 0`, `N > 0` and the moving structure stacks at
most `N` columns, `tmscore` lies in `[0, 1]` for all parameters. -/
theorem tmscore_bounds (s : Scorer) (hd : 0 < s.d02) (hN : 0 < s.N)
    (hcols : s.coord2.length ≤ s.N) (theta phi psi dx dy dz : ℝ) :
    0 ≤ tmscore s theta phi psi dx dy dz ∧
    tmscore s theta phi psi dx dy dz ≤ 1 := by
  set terms : List ℝ := (s.coord2.zip s.coord1).map fun p =>
    1 / (1 + dist2All (getMatrix theta phi psi dx dy dz) p.1 p.2 / s.d02)
    with hterms
  have hterm : ∀ x ∈ terms, 0 ≤ x ∧ x ≤ 1 := by
    intro x hx
    rw [hterms] at hx
    obtain ⟨p, _, hpx⟩ := List.mem_map.mp hx
    exact hpx ▸ tm_term_bounds _ p.1 p.2 s.d02 hd
  have hsum0 : 0 ≤ terms.sum :=
    List.sum_nonneg fun x hx => (hterm x hx).1
  have hle := List.sum_le_card_nsmul terms 1 fun x hx => (hterm x hx).2
  rw [nsmul_eq_mul, mul_one] at hle
  have hlenN : terms.length ≤ s.N := by
    rw [hterms, List.length_map, List.length_zip]
    exact le_trans (min_le_left _ _) hcols
  have hsum1 : terms.sum ≤ (s.N : ℝ) :=
    le_trans hle (by exact_mod_cast hlenN)
  have hts : tmscore s theta phi psi dx dy dz = terms.sum / (s.N : ℝ) := by
    rw [hterms]
    simp only [tmscore, tmRaw, neg_neg]
  rw [hts]
  have hNpos : (0 : ℝ) < (s.N : ℝ) := by exact_mod_cast hN
  exact ⟨div_nonneg hsum0 hNpos.le, (div_le_one hNpos).mpr hsum1⟩

/-- Thirty residues: ids 0..14, each id occurring twice (two chains with
the same numbering), all carrying a CA atom at the origin. -/
def res30 : List Residue :=
  res15 ++ res15

/-- Concrete index-mode input with duplicate residue ids: two identical
30-residue structures. -/
def inp30 : Input :=
  ⟨res30, res30, [], [], [], []⟩

/-- The scorer successfully constructed from `inp30` in index mode: it
stacks 30 columns but records `N = 15` distinct ids. -/
def s30 : Scorer :=
  match mkAligning "index" inp30 with
  | .ok s => s
  | .error _ => ⟨[], [], 0, 0⟩

theorem mk_inp30_ok : mkAligning "index" inp30 = .ok s30 := rfl

theorem zip_replicate_self {α β : Type} (n : ℕ) (a : α) (b : β) :
    (List.replicate n a).zip (List.replicate n b) =
      List.replicate n (a, b) := by
  induction n with
  | zero => rfl
  | succ k ih => simp [List.replicate_succ, ih]

theorem getMatrix_zero_eq_one : getMatrix 0 0 0 0 0 0 = 1 := by
  ext i j
  fin_cases i <;> fin_cases j <;>
    simp [getMatrix, getMatrixWrite, rotBlock, Matrix.one_apply,
      Matrix.zero_apply, Matrix.vecHead, Matrix.vecTail]

/-- A scorer whose two coordinate lists are `n` equal columns with affine
row 1 evaluates, at the zero transform, to `tmscore = n / N`. -/
theorem tmscore_replicate_eval (n N : ℕ) (d02 : ℝ) (c : Fin 4 → ℝ) :
    tmscore ⟨List.replicate n c, List.replicate n c, N, d02⟩ 0 0 0 0 0 0 =
      (n : ℝ) / (N : ℝ) := by
  have hdist : dist2All (getMatrix 0 0 0 0 0 0) c c = 0 := by
    rw [getMatrix_zero_eq_one]
    simp [dist2All, Matrix.one_mulVec]
  simp only [tmscore, tmRaw, zip_replicate_self, List.map_replicate, hdist,
    zero_div, add_zero, ne_eq, one_ne_zero, not_false_eq_true, div_self,
    List.sum_replicate, nsmul_eq_mul, mul_one, neg_neg]

/-- C2 counterexample. `inp30` constructs successfully in index mode
(`N = 15 ≥ 1`), yet at the zero transform the normalised TM-score is 2,
outside `[0, 1]`: the 30 stacked columns outnumber the 15 distinct ids
that define `N`. -/
theorem tmscore_above_one :
    mkAligning "index" inp30 = .ok s30 ∧
    tmscore s30 0 0 0 0 0 0 = 2 ∧ ¬(tmscore s30 0 0 0 0 0 0 ≤ 1) := by
  refine ⟨mk_inp30_ok, ?_, ?_⟩
  · have h : s30 = ⟨List.replicate 30 (homog (0, 0, 0)),
        List.replicate 30 (homog (0, 0, 0)), 15, d0Of 15 ^ 2⟩ := rfl
    rw [h, tmscore_replicate_eval]
    norm_num
  · have h : s30 = ⟨List.replicate 30 (homog (0, 0, 0)),
        List.replicate 30 (homog (0, 0, 0)), 15, d0Of 15 ^ 2⟩ := rfl
    rw [h, tmscore_replicate_eval]
    norm_num

theorem gapFree_iff (a1 a2 : List Char) (n : ℕ) :
    gapFree a1 a2 n ↔ ∃ h : n < (a1.zip a2).length,
      ((a1.zip a2).get ⟨n, h⟩).1 ≠ '-' ∧
      ((a1.zip a2).get ⟨n, h⟩).2 ≠ '-' := by
  unfold gapFree
  cases hzn : (a1.zip a2).get? n with
  | none =>
      rw [List.get?_eq_none] at hzn
      simp only [false_iff, not_exists]
      intro h
      omega
  | some p =>
      rw [List.get?_eq_some] at hzn
      obtain ⟨hlt, hget⟩ := hzn
      constructor
      · intro hp
        exact ⟨hlt, by rw [hget]; exact hp.1, by rw [hget]; exact hp.2⟩
      · intro ⟨h, h1, h2⟩
        rw [← hget]
        exact ⟨h1, h2⟩

theorem filter_drop_succ_le (zl : List (Char × Char)) (n : ℕ) :
    ((zl.drop (n + 1)).filter fun p =>
      decide (p.1 ≠ '-') && decide (p.2 ≠ '-')).length ≤
    ((zl.drop n).filter fun p =>
      decide (p.1 ≠ '-') && decide (p.2 ≠ '-')).length := by
  by_cases hn : n < zl.length
  · rw [List.drop_eq_getElem_cons hn, List.filter_cons]
    split <;> simp
  · rw [List.drop_eq_nil_of_le (by omega), List.drop_eq_nil_of_le (by omega)]

theorem stackAlignment_from_le (a1 a2 : List Char) (res : List Residue) :
    ∀ n, ((res.enumFrom n).filterMap fun p =>
      if gapFree a1 a2 p.1 then p.2.ca.map homog else none).length ≤
    (((a1.zip a2).drop n).filter fun p =>
      decide (p.1 ≠ '-') && decide (p.2 ≠ '-')).length := by
  induction res with
  | nil => intro n; simp
  | cons r rs ih =>
      intro n
      rw [List.enumFrom_cons, List.filterMap_cons]
      by_cases hg : gapFree a1 a2 n
      · obtain ⟨hlt, h1, h2⟩ := (gapFree_iff a1 a2 n).mp hg
        have hdrop : (a1.zip a2).drop n =
            (a1.zip a2).get ⟨n, hlt⟩ :: (a1.zip a2).drop (n + 1) := by
          rw [List.drop_eq_getElem_cons hlt]
          rfl
        have hql : (decide (((a1.zip a2).get ⟨n, hlt⟩).1 ≠ '-') &&
            decide (((a1.zip a2).get ⟨n, hlt⟩).2 ≠ '-')) = true := by
          simp only [Bool.and_eq_true, decide_eq_true_eq]
          exact ⟨h1, h2⟩
        rw [hdrop, List.filter_cons, hql, if_pos rfl]
        cases hca : r.ca with
        | none =>
            have hfa : (if gapFree a1 a2 ((n, r) : ℕ × Residue).1 then
                Option.map homog (none : Option (ℝ × ℝ × ℝ)) else none) =
                none := by
              rw [if_pos hg]
              rfl
            rw [hfa]
            exact le_trans (ih (n + 1)) (by simp)
        | some c =>
            have hfa : (if gapFree a1 a2 ((n, r) : ℕ × Residue).1 then
                Option.map homog (some c) else none) =
                some (homog c) := by
              rw [if_pos hg]
              rfl
            rw [hfa]
            simp only [List.length_cons]
            exact Nat.succ_le_succ (ih (n + 1))
      · have hfa : (if gapFree a1 a2 ((n, r) : ℕ × Residue).1 then
            Option.map homog ((n, r) : ℕ × Residue).2.ca else none) =
            none := if_neg hg
        rw [hfa]
        exact le_trans (ih (n + 1)) (filter_drop_succ_le _ _)

theorem filter_zip_le_left (a1 : List Char) : ∀ a2 : List Char,
    ((a1.zip a2).filter fun p =>
      decide (p.1 ≠ '-') && decide (p.2 ≠ '-')).length ≤
    (a1.filter fun c => decide (c ≠ '-')).length := by
  induction a1 with
  | nil => intro a2; simp
  | cons x xs ih =>
      intro a2
      cases a2 with
      | nil => simp
      | cons y ys =>
          rw [List.zip_cons_cons, List.filter_cons, List.filter_cons]
          by_cases hx : x = '-'
          · rw [if_neg (by simp [hx]), if_neg (by simp [hx])]
            exact ih ys
          · by_cases hy : y = '-'
            · rw [if_neg (by simp [hy]), if_pos (by simp [hx])]
              exact le_trans (ih ys) (by simp)
            · rw [if_pos (by simp [hx, hy]), if_pos (by simp [hx])]
              exact Nat.succ_le_succ (ih ys)

/-- Columns stacked in alignment mode never outnumber the non-gap
characters of the first aligned sequence. -/
theorem stackAlignment_length_le (a1 a2 : List Char) (res : List Residue) :
    (stackAlignment a1 a2 res).length ≤
    (a1.filter fun c => decide (c ≠ '-')).length := by
  have h0 := stackAlignment_from_le a1 a2 res 0
  rw [List.drop_zero] at h0
  exact le_trans h0 (filter_zip_le_left a1 a2)

/-- C2 (amended). For every successfully constructed scorer whose two
coordinate matrices stack the SAME number of columns — the only case the
score functions evaluate pairwise; on differing counts numpy raises a
shape error or broadcasts a single column, and the bound can again fail —
the normalised TM-score lies in `[0, 1]` for all six parameters, provided
that common column count cannot exceed `N`: under the equal-count
premise this holds in index mode whenever the first structure's residue
ids are pairwise distinct, and in alignment mode whenever the externally
aligned first sequence has exactly the sequence's characters outside its
gaps. (With duplicate ids, index mode stacks more columns than `N` and
the score exceeds 1, as the counterexample shows.) -/
theorem tmscore_mem_unit (mode : String) (inp : Input) (s : Scorer)
    (h : mkAligning mode inp = .ok s)
    (hlen : s.coord1.length = s.coord2.length)
    (hok : (mode = "index" ∧ (inp.residues1.map Residue.id).Nodup) ∨
           (mode = "align" ∧
             inp.aligned1.filter (fun c => decide (c ≠ '-')) = inp.seq1))
    (theta phi psi dx dy dz : ℝ) :
    0 ≤ tmscore s theta phi psi dx dy dz ∧
    tmscore s theta phi psi dx dy dz ≤ 1 := by
  rcases hok with ⟨hmode, hnd⟩ | ⟨hmode, halign⟩
  · subst hmode
    rw [mk_index_eq inp] at h
    obtain ⟨l, hl, hN15, hs⟩ := buildScorer_ok_inv _ _ h
    obtain ⟨hl', _, _⟩ := loadDataIndex_ok_inv inp l hl
    subst hs
    subst hl'
    refine tmscore_bounds _ (d02_pos _ hN15) (lt_of_lt_of_le (by norm_num)
      hN15) ?_ theta phi psi dx dy dz
    have h1 : (stackIndex (inp.residues1.map Residue.id)
        (inp.residues2.map Residue.id) inp.residues1).length ≤
        inp.residues1.length := List.length_filterMap_le _ _
    have hNlen : (inp.residues1.map Residue.id).dedup.length =
        inp.residues1.length := by
      rw [hnd.dedup, List.length_map]
    simp only at hlen ⊢
    omega
  · subst hmode
    rw [mk_align_eq inp] at h
    obtain ⟨l, hl, hN15, hs⟩ := buildScorer_ok_inv _ _ h
    obtain ⟨hl', _, _⟩ := loadDataAlignment_ok_inv inp l hl
    subst hs
    subst hl'
    refine tmscore_bounds _ (d02_pos _ hN15) (lt_of_lt_of_le (by norm_num)
      hN15) ?_ theta phi psi dx dy dz
    have h2 : (stackAlignment inp.aligned1 inp.aligned2
        inp.residues2).length ≤
        (inp.aligned1.filter (fun c => decide (c ≠ '-'))).length :=
      stackAlignment_length_le _ _ _
    simp only at hlen ⊢
    rw [halign] at h2
    exact h2

/-- Witness for C2 at the concrete construction `inp15`. -/
theorem tmscore_mem_unit_witness :
    mkAligning "index" inp15 = .ok s15 ∧
    s15.coord1.length = s15.coord2.length ∧
    (inp15.residues1.map Residue.id).Nodup ∧
    0 ≤ tmscore s15 0 0 0 0 0 0 ∧ tmscore s15 0 0 0 0 0 0 ≤ 1 := by
  have hnd : (inp15.residues1.map Residue.id).Nodup := by decide
  have hlen : s15.coord1.length = s15.coord2.length := rfl
  have hb := tmscore_mem_unit "index" inp15 s15 mk_inp15_ok hlen
    (Or.inl ⟨rfl, hnd⟩) 0 0 0 0 0 0
  exact ⟨mk_inp15_ok, hlen, hnd, hb.1, hb.2⟩

/-- Concrete index-mode input whose first structure repeats residue id 0
(16 residues) while the second has the plain 15: both stacks succeed but
with different column counts. -/
def inpMis : Input :=
  ⟨res15 ++ [⟨0, some (0, 0, 0)⟩], res15, [], [], [], []⟩

/-- The scorer successfully constructed from `inpMis` in index mode. -/
def sMis : Scorer :=
  match mkAligning "index" inpMis with
  | .ok s => s
  | .error _ => ⟨[], [], 0, 0⟩

/-- Fourteen residues with distinct ids 0..13, each carrying a CA atom. -/
def res14 : List Residue :=
  (List.range 14).map fun i => ⟨i, some (0, 0, 0)⟩

/-- A gapless 15-character sequence. -/
def seqA : List Char :=
  List.replicate 15 'A'

/-- Concrete alignment-mode input whose second structure has one residue
fewer than the gap-free alignment positions: the first stacks 15 columns,
the second only 14. -/
def inpMisAlign : Input :=
  ⟨res15, res14, seqA, seqA, seqA, seqA⟩

/-- The scorer successfully constructed from `inpMisAlign` in alignment
mode. -/
def sMisAlign : Scorer :=
  match mkAligning "align" inpMisAlign with
  | .ok s => s
  | .error _ => ⟨[], [], 0, 0⟩

/-- C5 counterexample. In BOTH matching modes construction can succeed
with coordinate matrices of different shapes — the code performs no shape
check: in index mode a repeated id stacks 16 columns against 15, and in
alignment mode a short second structure stacks 14 columns against 15. -/
theorem coord_shape_mismatch :
    (mkAligning "index" inpMis = .ok sMis ∧
      sMis.coord1.length = 16 ∧ sMis.coord2.length = 15 ∧
      sMis.coord1.length ≠ sMis.coord2.length) ∧
    (mkAligning "align" inpMisAlign = .ok sMisAlign ∧
      sMisAlign.coord1.length = 15 ∧ sMisAlign.coord2.length = 14 ∧
      sMisAlign.coord1.length ≠ sMisAlign.coord2.length) := by
  refine ⟨⟨rfl, rfl, rfl, by decide⟩, ⟨rfl, rfl, rfl, by decide⟩⟩

theorem homog_affine_row (p : ℝ × ℝ × ℝ) : homog p 3 = 1 := rfl

theorem stackIndex_affine_row (ids1 ids2 : List ℤ) (res : List Residue) :
    ∀ c ∈ stackIndex ids1 ids2 res, c 3 = 1 := by
  intro c hc
  obtain ⟨r, _, hfr⟩ := List.mem_filterMap.mp hc
  by_cases hid : r.id ∈ ids1 ∧ r.id ∈ ids2
  · rw [if_pos hid] at hfr
    obtain ⟨p, _, hp⟩ := Option.map_eq_some'.mp hfr
    rw [← hp]
    rfl
  · rw [if_neg hid] at hfr
    exact absurd hfr (by simp)

theorem length_filter_mem_comm (l1 l2 : List ℤ) (h1 : l1.Nodup)
    (h2 : l2.Nodup) :
    (l1.filter fun i => decide (i ∈ l2)).length =
      (l2.filter fun i => decide (i ∈ l1)).length := by
  have key : ∀ (a b : List ℤ), a.Nodup →
      (a.filter fun i => decide (i ∈ b)).length =
        (a.toFinset ∩ b.toFinset).card := by
    intro a b ha
    have hnd : (a.filter fun i => decide (i ∈ b)).Nodup := ha.filter _
    rw [← List.toFinset_card_of_nodup hnd]
    congr 1
    ext x
    simp [List.mem_filter, Finset.mem_inter]
  rw [key l1 l2 h1, key l2 l1 h2, Finset.inter_comm]

theorem stackIndex_length_eq (ids1 ids2 : List ℤ) (res : List Residue)
    (hca : ∀ r ∈ res, r.ca.isSome) :
    (stackIndex ids1 ids2 res).length =
      ((res.map Residue.id).filter fun i =>
        decide (i ∈ ids1) && decide (i ∈ ids2)).length := by
  induction res with
  | nil => rfl
  | cons r rs ih =>
      have hcar : r.ca.isSome := hca r (List.mem_cons_self r rs)
      obtain ⟨p, hp⟩ := Option.isSome_iff_exists.mp hcar
      have ihr := ih fun x hx => hca x (List.mem_cons_of_mem r hx)
      unfold stackIndex at ihr ⊢
      rw [List.filterMap_cons, List.map_cons, List.filter_cons]
      by_cases hid : r.id ∈ ids1 ∧ r.id ∈ ids2
      · rw [if_pos hid, hp]
        have hq : (decide (r.id ∈ ids1) && decide (r.id ∈ ids2)) = true := by
          simp [hid.1, hid.2]
        rw [hq, if_pos rfl]
        simp only [Option.map_some', List.length_cons]
        rw [ihr]
      · rw [if_neg hid]
        have hq : (decide (r.id ∈ ids1) && decide (r.id ∈ ids2)) = false := by
          rcases not_and_or.mp hid with hnot | hnot <;> simp [hnot]
        rw [hq]
        simp only [Bool.false_eq_true, if_false]
        rw [ihr]

theorem filter_and_self_left (l1 l2 : List ℤ) :
    (l1.filter fun i => decide (i ∈ l1) && decide (i ∈ l2)).length =
      (l1.filter fun i => decide (i ∈ l2)).length := by
  rw [List.filter_congr]
  intro x hx
  simp [hx]

theorem stackAlignment_affine_row (a1 a2 : List Char)
    (res : List Residue) :
    ∀ c ∈ stackAlignment a1 a2 res, c 3 = 1 := by
  intro c hc
  obtain ⟨p, _, hfp⟩ := List.mem_filterMap.mp hc
  by_cases hg : gapFree a1 a2 p.1
  · rw [if_pos hg] at hfp
    obtain ⟨q, _, hq⟩ := Option.map_eq_some'.mp hfp
    rw [← hq]
    rfl
  · rw [if_neg hg] at hfp
    exact absurd hfp (by simp)

theorem stackAlignment_from_eq (a1 a2 : List Char) (res : List Residue)
    (hca : ∀ r ∈ res, r.ca.isSome) :
    ∀ n, (a1.zip a2).length ≤ n + res.length →
    ((res.enumFrom n).filterMap fun p =>
      if gapFree a1 a2 p.1 then p.2.ca.map homog else none).length =
    (((a1.zip a2).drop n).filter fun p =>
      decide (p.1 ≠ '-') && decide (p.2 ≠ '-')).length := by
  induction res with
  | nil =>
      intro n hn
      rw [List.enumFrom_nil, List.filterMap_nil,
        List.drop_eq_nil_of_le (by simpa using hn)]
      rfl
  | cons r rs ih =>
      intro n hn
      rw [List.length_cons] at hn
      have hcar : r.ca.isSome := hca r (List.mem_cons_self r rs)
      obtain ⟨p, hp⟩ := Option.isSome_iff_exists.mp hcar
      have ihr := ih (fun x hx => hca x (List.mem_cons_of_mem r hx))
        (n + 1) (by omega)
      rw [List.enumFrom_cons, List.filterMap_cons]
      by_cases hg : gapFree a1 a2 n
      · obtain ⟨hlt, h1, h2⟩ := (gapFree_iff a1 a2 n).mp hg
        have hdrop : (a1.zip a2).drop n =
            (a1.zip a2).get ⟨n, hlt⟩ :: (a1.zip a2).drop (n + 1) := by
          rw [List.drop_eq_getElem_cons hlt]
          rfl
        have hql : (decide (((a1.zip a2).get ⟨n, hlt⟩).1 ≠ '-') &&
            decide (((a1.zip a2).get ⟨n, hlt⟩).2 ≠ '-')) = true := by
          simp only [Bool.and_eq_true, decide_eq_true_eq]
          exact ⟨h1, h2⟩
        rw [hdrop, List.filter_cons, hql, if_pos rfl]
        have hfa : (if gapFree a1 a2 ((n, r) : ℕ × Residue).1 then
            Option.map homog ((n, r) : ℕ × Residue).2.ca else none) =
            some (homog p) := by
          rw [if_pos hg]
          show Option.map homog r.ca = some (homog p)
          rw [hp]
          rfl
        rw [hfa]
        simp only [List.length_cons]
        rw [ihr]
      · have hfa : (if gapFree a1 a2 ((n, r) : ℕ × Residue).1 then
            Option.map homog ((n, r) : ℕ × Residue).2.ca else none) =
            none := if_neg hg
        rw [hfa]
        have hr : (((a1.zip a2).drop n).filter fun p =>
            decide (p.1 ≠ '-') && decide (p.2 ≠ '-')).length =
            (((a1.zip a2).drop (n + 1)).filter fun p =>
              decide (p.1 ≠ '-') && decide (p.2 ≠ '-')).length := by
          by_cases hlt : n < (a1.zip a2).length
          · have hdrop : (a1.zip a2).drop n =
                (a1.zip a2).get ⟨n, hlt⟩ :: (a1.zip a2).drop (n + 1) := by
              rw [List.drop_eq_getElem_cons hlt]
              rfl
            have hnc : ¬(((a1.zip a2).get ⟨n, hlt⟩).1 ≠ '-' ∧
                ((a1.zip a2).get ⟨n, hlt⟩).2 ≠ '-') := fun hc =>
              hg ((gapFree_iff a1 a2 n).mpr ⟨hlt, hc.1, hc.2⟩)
            have hqf : (decide (((a1.zip a2).get ⟨n, hlt⟩).1 ≠ '-') &&
                decide (((a1.zip a2).get ⟨n, hlt⟩).2 ≠ '-')) = false := by
              rcases not_and_or.mp hnc with hc | hc
              · rw [decide_eq_false hc, Bool.false_and]
              · rw [decide_eq_false hc, Bool.and_false]
            rw [hdrop, List.filter_cons, hqf]
            simp
          · rw [List.drop_eq_nil_of_le (by omega),
              List.drop_eq_nil_of_le (by omega)]
        rw [hr, ihr]

/-- When every residue carries the marker atom and the structure has at
least as many residues as the aligned pair is long, alignment mode stacks
exactly one column per gap-free alignment position. -/
theorem stackAlignment_length_eq (a1 a2 : List Char) (res : List Residue)
    (hca : ∀ r ∈ res, r.ca.isSome)
    (hlen : (a1.zip a2).length ≤ res.length) :
    (stackAlignment a1 a2 res).length =
    ((a1.zip a2).filter fun p =>
      decide (p.1 ≠ '-') && decide (p.2 ≠ '-')).length := by
  have h0 := stackAlignment_from_eq a1 a2 res hca 0 (by omega)
  rw [List.drop_zero] at h0
  exact h0

/-- C5 (amended). After construction in either matching mode the 4th row
is exactly 1 in every column of both stored coordinate matrices,
unconditionally. The two matrices have identical shape (4, N_matched)
under the conditions the code actually needs: in index mode whenever each
structure's residue ids are pairwise distinct and every residue carries
the marker atom (both then stack one column per common id); in alignment
mode whenever every residue carries the marker atom and each structure
has at least as many residues as the aligned pair is long (both then
stack one column per gap-free position). Without these conditions
construction succeeds with NO shape check and the counts can differ, as
the counterexample shows in both modes. -/
theorem coord_shapes_agree :
    (∀ mode inp s, mkAligning mode inp = .ok s →
      (∀ c ∈ s.coord1, c 3 = 1) ∧ (∀ c ∈ s.coord2, c 3 = 1)) ∧
    (∀ inp s, mkAligning "index" inp = .ok s →
      (inp.residues1.map Residue.id).Nodup →
      (inp.residues2.map Residue.id).Nodup →
      (∀ r ∈ inp.residues1, r.ca.isSome) →
      (∀ r ∈ inp.residues2, r.ca.isSome) →
      s.coord1.length = s.coord2.length) ∧
    (∀ inp s, mkAligning "align" inp = .ok s →
      (∀ r ∈ inp.residues1, r.ca.isSome) →
      (∀ r ∈ inp.residues2, r.ca.isSome) →
      (inp.aligned1.zip inp.aligned2).length ≤ inp.residues1.length →
      (inp.aligned1.zip inp.aligned2).length ≤ inp.residues2.length →
      s.coord1.length = s.coord2.length) := by
  refine ⟨?_, ?_, ?_⟩
  · intro mode inp s h
    by_cases hm1 : mode = "align"
    · subst hm1
      rw [mk_align_eq inp] at h
      obtain ⟨l, hl, _, hs⟩ := buildScorer_ok_inv _ _ h
      obtain ⟨hl', _, _⟩ := loadDataAlignment_ok_inv inp l hl
      subst hs
      subst hl'
      exact ⟨stackAlignment_affine_row _ _ _, stackAlignment_affine_row _ _ _⟩
    · by_cases hm2 : mode = "index"
      · subst hm2
        rw [mk_index_eq inp] at h
        obtain ⟨l, hl, _, hs⟩ := buildScorer_ok_inv _ _ h
        obtain ⟨hl', _, _⟩ := loadDataIndex_ok_inv inp l hl
        subst hs
        subst hl'
        exact ⟨stackIndex_affine_row _ _ _, stackIndex_affine_row _ _ _⟩
      · unfold mkAligning at h
        rw [if_neg hm1, if_neg hm2] at h
        exact absurd h (by simp)
  · intro inp s h hnd1 hnd2 hca1 hca2
    rw [mk_index_eq inp] at h
    obtain ⟨l, hl, hN15, hs⟩ := buildScorer_ok_inv _ _ h
    obtain ⟨hl', _, _⟩ := loadDataIndex_ok_inv inp l hl
    subst hs
    subst hl'
    show (stackIndex (inp.residues1.map Residue.id)
        (inp.residues2.map Residue.id) inp.residues1).length =
      (stackIndex (inp.residues1.map Residue.id)
        (inp.residues2.map Residue.id) inp.residues2).length
    rw [stackIndex_length_eq _ _ _ hca1, stackIndex_length_eq _ _ _ hca2,
      filter_and_self_left]
    have h2 : ((inp.residues2.map Residue.id).filter fun i =>
        decide (i ∈ (inp.residues1.map Residue.id)) &&
        decide (i ∈ (inp.residues2.map Residue.id))).length =
        ((inp.residues2.map Residue.id).filter fun i =>
          decide (i ∈ (inp.residues1.map Residue.id))).length := by
      rw [List.filter_congr]
      intro x hx
      simp [hx]
    rw [h2]
    exact length_filter_mem_comm _ _ hnd1 hnd2
  · intro inp s h hca1 hca2 hlen1 hlen2
    rw [mk_align_eq inp] at h
    obtain ⟨l, hl, _, hs⟩ := buildScorer_ok_inv _ _ h
    obtain ⟨hl', _, _⟩ := loadDataAlignment_ok_inv inp l hl
    subst hs
    subst hl'
    show (stackAlignment inp.aligned1 inp.aligned2 inp.residues1).length =
      (stackAlignment inp.aligned1 inp.aligned2 inp.residues2).length
    rw [stackAlignment_length_eq _ _ _ hca1 hlen1,
      stackAlignment_length_eq _ _ _ hca2 hlen2]

/-- A gapless alignment-mode construction input: two 15-residue
structures with identical gapless aligned sequences. -/
def inpAlign : Input :=
  ⟨res15, res15, seqA, seqA, seqA, seqA⟩

/-- The scorer successfully constructed from `inpAlign` in alignment
mode. -/
def sAlign : Scorer :=
  match mkAligning "align" inpAlign with
  | .ok s => s
  | .error _ => ⟨[], [], 0, 0⟩

theorem mk_inpAlign_ok : mkAligning "align" inpAlign = .ok sAlign := rfl

/-- Witness for C5: the affine row and the index-mode shape equality at
the concrete construction `inp15`, and the alignment-mode shape equality
at the concrete construction `inpAlign`. -/
theorem coord_shapes_agree_witness :
    mkAligning "index" inp15 = .ok s15 ∧
    (∀ c ∈ s15.coord1, c 3 = 1) ∧
    s15.coord1.length = s15.coord2.length ∧
    mkAligning "align" inpAlign = .ok sAlign ∧
    sAlign.coord1.length = sAlign.coord2.length := by
  refine ⟨mk_inp15_ok,
    (coord_shapes_agree.1 "index" inp15 s15 mk_inp15_ok).1,
    coord_shapes_agree.2.1 inp15 s15 mk_inp15_ok (by decide) (by decide)
      (by decide) (by decide),
    mk_inpAlign_ok,
    coord_shapes_agree.2.2 inpAlign sAlign mk_inpAlign_ok (by decide)
      (by decide) (by decide) (by decide)⟩

/-- Python's `math.atan2` on real arguments. -/
def atan2 (y x : ℝ) : ℝ :=
  if 0 < x then Real.arctan (y / x)
  else if x < 0 then
    (if 0 ≤ y then Real.arctan (y / x) + Real.pi
     else Real.arctan (y / x) - Real.pi)
  else
    (if 0 < y then Real.pi / 2 else if y < 0 then -(Real.pi / 2) else 0)

/-- Python's `math.hypot`. -/
def hypot (x y : ℝ) : ℝ :=
  Real.sqrt (x ^ 2 + y ^ 2)

/-- Euclidean norm of a 3-vector (`np.linalg.norm`). -/
def norm3 (v : Fin 3 → ℝ) : ℝ :=
  Real.sqrt (∑ j : Fin 3, v j ^ 2)

/-- Cross product (`np.cross`). -/
def cross3 (a b : Fin 3 → ℝ) : Fin 3 → ℝ :=
  ![a 1 * b 2 - a 2 * b 1, a 2 * b 0 - a 0 * b 2, a 0 * b 1 - a 1 * b 0]

/-- Dot product of 3-vectors. -/
def dot3 (a b : Fin 3 → ℝ) : ℝ :=
  ∑ j : Fin 3, a j * b j

/-- The skew-symmetric matrix `vx` built from `v` in
`get_default_values`. -/
def skew (v : Fin 3 → ℝ) : Matrix (Fin 3) (Fin 3) ℝ :=
  ![![0, -(v 2), v 1],
    ![v 2, 0, -(v 0)],
    ![-(v 1), v 0, 0]]

/-- The six seed values `get_default_values` returns. -/
structure GuessValues where
  theta : ℝ
  phi : ℝ
  psi : ℝ
  dx : ℝ
  dy : ℝ
  dz : ℝ

/-- Marks a floating-point division whose real value is undefined
(an IEEE NaN or Inf that `get_default_values` would propagate silently):
`zeroNormOrientation` is `vec / np.linalg.norm(vec)` with zero norm,
`degenerateCross` is `(1 - c) / (s * s)` with zero cross-product norm
`s`. The SOURCE HAS NO GUARD for either: these error values mark exactly
where its arithmetic leaves the reals. -/
inductive NanError where
  | zeroNormOrientation
  | degenerateCross
deriving DecidableEq

open Classical in
/-- Embedding of `Aligning.get_default_values` (`tmscore.py` lines 41–76):
translation seed from the columnwise mean of `coord1 - coord2`,
orientation vectors from the 2nd and last columns, axis-angle rotation
`I + vx + vx·vx·(1−c)/s²`, Euler extraction via `atan2`. Divisions by a
vanishing norm — which the source performs UNGUARDED, silently producing
NaN — are modelled as `NanError` values. Columns are read with `getD`
against a zero default; the source instead raises `IndexError` when a
coordinate list has fewer than 2 columns, a region no theorem below
relies on (the concrete scorer exercised has 3 columns). -/
def getDefaultValues (s : Scorer) : Except NanError GuessValues :=
  let n := s.coord1.length;
  let dmean : Fin 4 → ℝ := fun j =>
    (((s.coord1.zip s.coord2).map fun p => p.1 j - p.2 j).sum) / n;
  let c1a := s.coord1.getD 1 (fun _ => 0);
  let c1b := s.coord1.getD (s.coord1.length - 1) (fun _ => 0);
  let c2a := s.coord2.getD 1 (fun _ => 0);
  let c2b := s.coord2.getD (s.coord2.length - 1) (fun _ => 0);
  let vec1 : Fin 3 → ℝ := fun j => c1a j.castSucc - c1b j.castSucc;
  let vec2 : Fin 3 → ℝ := fun j => c2a j.castSucc - c2b j.castSucc;
  if norm3 vec1 = 0 ∨ norm3 vec2 = 0 then .error .zeroNormOrientation
  else
    let u1 : Fin 3 → ℝ := fun j => vec1 j / norm3 vec1;
    let u2 : Fin 3 → ℝ := fun j => vec2 j / norm3 vec2;
    let v := cross3 u1 u2;
    let sN := norm3 v;
    let c := dot3 u1 u2;
    if sN = 0 then .error .degenerateCross
    else
      let vx := skew v;
      let R := (1 : Matrix (Fin 3) (Fin 3) ℝ) + vx +
        ((1 - c) / (sN * sN)) • (vx * vx);
      .ok ⟨atan2 (R 2 1) (R 2 2),
           atan2 (-(R 2 0)) (hypot (R 2 1) (R 2 2)),
           atan2 (R 1 0) (R 0 0),
           dmean 0, dmean 1, dmean 2⟩

/-- Three collinear columns along the x axis (a scorer compared against
itself uses the same list twice, as `TMscoring(pdb, pdb)` does). -/
def colsSelf : List (Fin 4 → ℝ) :=
  [homog (0, 0, 0), homog (1, 0, 0), homog (2, 0, 0)]

/-- Scorer state for a structure scored against itself. -/
def sSelf : Scorer :=
  ⟨colsSelf, colsSelf, 15, d0Of 15 ^ 2⟩

/-- C7. The claim that `get_default_values` guards the degenerate
parallel-orientation case is FALSE of the code: on a self-comparison
(`coord1 = coord2`, so `vec1 = vec2` and the cross-product norm `s` is 0)
the source reaches the division `(1 - c) / (s * s)` with `s = 0`
unguarded — here surfacing as the `degenerateCross` marker — instead of
falling back to an identity rotation or raising a specific condition. -/
theorem getDefaultValues_hits_zero_division :
    getDefaultValues sSelf = .error .degenerateCross := by
  have hvec : ∀ j : Fin 3,
      (colsSelf.getD 1 (fun _ => 0)) j.castSucc -
      (colsSelf.getD (colsSelf.length - 1) (fun _ => 0)) j.castSucc =
      (![-1, 0, 0] : Fin 3 → ℝ) j := by
    intro j
    fin_cases j <;>
      simp [colsSelf, List.getD, homog,
        show Fin.castSucc (0 : Fin 3) = (0 : Fin 4) from rfl,
        show Fin.castSucc (1 : Fin 3) = (1 : Fin 4) from rfl,
        show Fin.castSucc (2 : Fin 3) = (2 : Fin 4) from rfl]
    all_goals norm_num
  have hnorm : norm3 ![-1, 0, 0] = 1 := by
    unfold norm3
    rw [Fin.sum_univ_three]
    norm_num
  have hdiv : (fun j => (![-1, 0, 0] : Fin 3 → ℝ) j / 1) =
      (![-1, 0, 0] : Fin 3 → ℝ) := by
    funext j
    simp
  have hcross : cross3 ![-1, 0, 0] ![-1, 0, 0] = ![0, 0, 0] := by
    funext j
    fin_cases j <;> simp [cross3]
  have hnorm0 : norm3 ![0, 0, 0] = 0 := by
    unfold norm3
    rw [Fin.sum_univ_three]
    norm_num
  unfold getDefaultValues
  simp only [sSelf, hvec, hnorm, hdiv, hcross, hnorm0, one_ne_zero,
    or_self, if_false, if_pos rfl]
  simp

/-- Numeric core of one atom line of `Aligning.write` (`tmscore.py` lines
172–180): the parsed coordinates are wrapped as `vec = np.array([x, y, z,
0])` — homogeneous weight 0, not 1 — and multiplied by the transform
matrix; the first three components become the new coordinate fields. -/
def writeTransform (theta phi psi dx dy dz x y z : ℝ) : Fin 4 → ℝ :=
  (getMatrix theta phi psi dx dy dz).mulVec ![x, y, z, 0]

/-- C1. The claim that `write` applies the full rigid transform (rotation
AND translation) is FALSE of the code: because `write` builds the
homogeneous point with weight 0 instead of 1, the translation column is
multiplied by 0 and dropped. Under the pure translation
`(0,0,0,dx=1,0,0)` the code leaves the atom at the origin, while the
rigid transform itself — the same matrix applied to weight-1 homogeneous
coordinates — moves it to `(1,0,0)`. -/
theorem write_drops_translation :
    writeTransform 0 0 0 1 0 0 0 0 0 = ![0, 0, 0, 0] ∧
    (getMatrix 0 0 0 1 0 0).mulVec ![0, 0, 0, 1] = ![1, 0, 0, 1] := by
  constructor
  · funext i
    fin_cases i <;>
      simp [writeTransform, getMatrix, getMatrixWrite, rotBlock,
        Matrix.mulVec, dotProduct, Fin.sum_univ_four, Matrix.zero_apply,
        Matrix.vecHead, Matrix.vecTail]
  · funext i
    fin_cases i <;>
      simp [getMatrix, getMatrixWrite, rotBlock, Matrix.mulVec, dotProduct,
        Fin.sum_univ_four, Matrix.zero_apply, Matrix.vecHead,
        Matrix.vecTail]

end

end TMScoring
